import Mathlib

set_option maxRecDepth 8000

/-!
Verification development for the fingerprint-based routing and
credential-injection gateway (claude-proxy).

The Python sources are shallowly embedded as executable Lean definitions:
  - python strings are modelled as Lean String / List Char (code points),
  - python dicts observed only through key lookup are modelled as
    association lists, with assignment modelled as cons at the front
    (lookup observes the most recent binding, as dict assignment does),
  - hashlib.sha256 is modelled by a full executable SHA-256 over byte lists,
  - module-level mutable caches are modelled by explicit state passing,
  - file system reads are modelled by an explicit file-content parameter.
-/

/-! ## Generic byte, hex and UTF-8 utilities (model of hashlib / str.encode) -/

def w32 (x : Nat) : Nat := x % 4294967296

def rotr (n x : Nat) : Nat := w32 ((x >>> n) ||| (x <<< (32 - n)))

def sha256K : List Nat :=
  [1116352408, 1899447441, 3049323471, 3921009573, 961987163, 1508970993, 2453635748, 2870763221,
   3624381080, 310598401, 607225278, 1426881987, 1925078388, 2162078206, 2614888103, 3248222580,
   3835390401, 4022224774, 264347078, 604807628, 770255983, 1249150122, 1555081692, 1996064986,
   2554220882, 2821834349, 2952996808, 3210313671, 3336571891, 3584528711, 113926993, 338241895,
   666307205, 773529912, 1294757372, 1396182291, 1695183700, 1986661051, 2177026350, 2456956037,
   2730485921, 2820302411, 3259730800, 3345764771, 3516065817, 3600352804, 4094571909, 275423344,
   430227734, 506948616, 659060556, 883997877, 958139571, 1322822218, 1537002063, 1747873779,
   1955562222, 2024104815, 2227730452, 2361852424, 2428436474, 2756734187, 3204031479, 3329325298]

def sha256H0 : List Nat :=
  [1779033703, 3144134277, 1013904242, 2773480762, 1359893119, 2600822924, 528734635, 1541459225]

def padMessage (msg : List Nat) : List Nat :=
  let bitLen := 8 * msg.length
  let padZeros := (119 - msg.length % 64) % 64
  msg ++ [128] ++ List.replicate padZeros 0 ++
    (List.range 8).map (fun i => (bitLen >>> (8 * (7 - i))) % 256)

def chunks64Aux : Nat → List Nat → List (List Nat)
  | 0, _ => []
  | _, [] => []
  | fuel + 1, a :: rest => ((a :: rest).take 64) :: chunks64Aux fuel (rest.drop 63)

def chunks64 (l : List Nat) : List (List Nat) := chunks64Aux l.length l

def bytesToWords : List Nat → List Nat
  | b0 :: b1 :: b2 :: b3 :: rest =>
      ((b0 <<< 24) ||| (b1 <<< 16) ||| (b2 <<< 8) ||| b3) :: bytesToWords rest
  | _ => []

def wAt (w : List Nat) (i : Nat) : Nat := w.getD i 0

def smallSigma0 (x : Nat) : Nat := (rotr 7 x) ^^^ (rotr 18 x) ^^^ (x >>> 3)

def smallSigma1 (x : Nat) : Nat := (rotr 17 x) ^^^ (rotr 19 x) ^^^ (x >>> 10)

def bigSigma0 (x : Nat) : Nat := (rotr 2 x) ^^^ (rotr 13 x) ^^^ (rotr 22 x)

def bigSigma1 (x : Nat) : Nat := (rotr 6 x) ^^^ (rotr 11 x) ^^^ (rotr 25 x)

def shaCh (x y z : Nat) : Nat := (x &&& y) ^^^ ((x ^^^ 4294967295) &&& z)

def shaMaj (x y z : Nat) : Nat := (x &&& y) ^^^ (x &&& z) ^^^ (y &&& z)

def extendSchedule (ws : List Nat) : Nat → List Nat
  | 0 => ws
  | n + 1 =>
    let i := ws.length
    extendSchedule
      (ws ++ [w32 (smallSigma1 (wAt ws (i - 2)) + wAt ws (i - 7) +
                   smallSigma0 (wAt ws (i - 15)) + wAt ws (i - 16))]) n

def shaRound (st : Nat × Nat × Nat × Nat × Nat × Nat × Nat × Nat) (kw : Nat × Nat) :
    Nat × Nat × Nat × Nat × Nat × Nat × Nat × Nat :=
  let (a, b, c, d, e, f, g, h) := st
  let (k, w) := kw
  let t1 := w32 (h + bigSigma1 e + shaCh e f g + k + w)
  let t2 := w32 (bigSigma0 a + shaMaj a b c)
  (w32 (t1 + t2), a, b, c, w32 (d + t1), e, f, g)

def processChunk (hs : List Nat) (chunk : List Nat) : List Nat :=
  let ws := extendSchedule (bytesToWords chunk) 48
  let st0 := (wAt hs 0, wAt hs 1, wAt hs 2, wAt hs 3, wAt hs 4, wAt hs 5, wAt hs 6, wAt hs 7)
  let (a, b, c, d, e, f, g, h) := (sha256K.zip ws).foldl shaRound st0
  [w32 (wAt hs 0 + a), w32 (wAt hs 1 + b), w32 (wAt hs 2 + c), w32 (wAt hs 3 + d),
   w32 (wAt hs 4 + e), w32 (wAt hs 5 + f), w32 (wAt hs 6 + g), w32 (wAt hs 7 + h)]

def sha256 (msg : List Nat) : List Nat :=
  let hs := (chunks64 (padMessage msg)).foldl processChunk sha256H0
  (hs.map (fun v => [(v >>> 24) % 256, (v >>> 16) % 256, (v >>> 8) % 256, v % 256])).flatten

def hexDigitChar (n : Nat) : Char :=
  if n < 10 then Char.ofNat (48 + n) else Char.ofNat (87 + n)

def bytesToHex (bs : List Nat) : List Char :=
  (bs.map (fun b => [hexDigitChar (b / 16), hexDigitChar (b % 16)])).flatten

def utf8Char (c : Char) : List Nat :=
  let n := c.toNat
  if n < 128 then [n]
  else if n < 2048 then [192 + n / 64, 128 + n % 64]
  else if n < 65536 then [224 + n / 4096, 128 + (n / 64) % 64, 128 + n % 64]
  else [240 + n / 262144, 128 + (n / 4096) % 64, 128 + (n / 64) % 64, 128 + n % 64]

def utf8Encode (s : List Char) : List Nat := (s.map utf8Char).flatten

/-! ## Python string operations on code-point lists -/

/-- Model of the python expression pat in l (substring containment). -/
def containsSub (pat : List Char) : List Char → Bool
  | [] => pat.isPrefixOf ([] : List Char)
  | c :: rest => pat.isPrefixOf (c :: rest) || containsSub pat rest

/-- Model of python l.split(pat)[0]: everything before the first occurrence
of pat, or all of l when pat does not occur. -/
def takeBeforeFirst (pat : List Char) : List Char → List Char
  | [] => []
  | c :: rest => if pat.isPrefixOf (c :: rest) then [] else c :: takeBeforeFirst pat rest

/-- The ASCII whitespace characters removed by python str.strip().
Non-ASCII unicode whitespace is outside the modelled character set. -/
def isPySpace (c : Char) : Bool :=
  c = ' ' || c = '\t' || c = '\n' || c = '\r' || c = '\x0b' || c = '\x0c'

def trimTrail (l : List Char) : List Char := (l.reverse.dropWhile isPySpace).reverse

/-- Model of python str.strip(). -/
def pyStrip (l : List Char) : List Char := (trimTrail l).dropWhile isPySpace

/-- Model of python str.replace(pat, rep) for a nonempty pat:
replace non-overlapping occurrences left to right.  Fuel-based structural
recursion so that the function evaluates inside the kernel. -/
def replaceAllAux (pat rep : List Char) : Nat → List Char → List Char
  | 0, l => l
  | _, [] => []
  | fuel + 1, c :: rest =>
    if pat.isPrefixOf (c :: rest) then rep ++ replaceAllAux pat rep fuel ((c :: rest).drop pat.length)
    else c :: replaceAllAux pat rep fuel rest

def replaceAll (pat rep l : List Char) : List Char := replaceAllAux pat rep l.length l

def pyReplace (s pat rep : String) : String := String.mk (replaceAll pat.toList rep.toList s.toList)

/-- Model of python s.startswith(pre), on code-point lists so that it
evaluates inside the kernel. -/
def pyStartsWith (pre s : String) : Bool := pre.toList.isPrefixOf s.toList

/-- The bare volatile-section marker as a code-point list. -/
def notesL : List Char := "Notes:".toList

/-- pat occurs somewhere inside l. -/
def OccursIn (pat l : List Char) : Prop := ∃ a b, l = a ++ pat ++ b

/-- l ends with suf. -/
def EndsWith (suf l : List Char) : Prop := ∃ q, l = q ++ suf

/-! ## src/python/claude_proxy/utils.py -/

namespace Utils

/-- The three volatile-section separators checked by compute_agent_hash,
in source order. -/
def volatileSeparators : List (List Char) :=
  ["\n\nNotes:".toList, "\nNotes:".toList, "Notes:".toList]

/-- The for-loop with break over the separators: strip at the first
separator found to occur, then stop. -/
def stripSeparatorLoop : List (List Char) → List Char → List Char
  | [], p => p
  | sep :: rest, p => if containsSub sep p then takeBeforeFirst sep p else stripSeparatorLoop rest p

/-- Embedding of utils.compute_agent_hash: optionally strip the volatile
Notes section, strip surrounding whitespace, utf-8 encode, sha256, first
16 hex characters. -/
def compute_agent_hash (prompt : String) (strip_notes : Bool) : String :=
  let p := prompt.toList
  let p2 := if strip_notes then stripSeparatorLoop volatileSeparators p else p
  String.mk ((bytesToHex (sha256 (utf8Encode (pyStrip p2)))).take 16)

end Utils

namespace SpecModel

/-- Fingerprint as worded by the spec: search for a volatile-section marker
in the precedence order two-newline, single-newline, bare; truncate the
text at the first occurrence of the first pattern that matches (one strip
only, full text when none match); trim surrounding whitespace, utf-8
encode, hash with sha256 and report the first 16 hex characters. -/
def fingerprintSpec (prompt : String) : String :=
  let p := prompt.toList
  let truncated :=
    match Utils.volatileSeparators.find? (fun m => containsSub m p) with
    | some m => takeBeforeFirst m p
    | none => p
  String.mk ((bytesToHex (sha256 (utf8Encode (pyStrip truncated)))).take 16)

end SpecModel

/-! ## Data model for request bodies (anthropic messages format) -/

/-- One element of a system content-block list.  A dict block carries the
optional type and text fields observed by the code; nondict stands for a
list element that is not a dict. -/
inductive SysBlock where
  | blk (btype : Option String) (btext : Option String)
  | nondict
deriving DecidableEq

/-- The system field of a request body: either a plain string or a list of
content blocks. -/
inductive SysVal where
  | str (s : String)
  | blocks (bs : List SysBlock)
deriving DecidableEq

/-- The text fragments collected from a block list: text of every dict
block whose type field is the string text, with missing text defaulting
to the empty string. -/
def blockTexts (bs : List SysBlock) : List String :=
  bs.filterMap fun b =>
    match b with
    | .blk ty tx => if ty = some "text" then some (tx.getD "") else none
    | .nondict => none

/-- Python " ".join. -/
def joinSpace (parts : List String) : String := String.intercalate " " parts

/-- Python truthiness of a system value: empty string and empty list are
falsy. -/
def sysTruthy : SysVal → Bool
  | .str s => !(s = "")
  | .blocks bs => !bs.isEmpty

/-- A message of the messages array: optional role, optional content
(content defaults to the empty string when read). -/
structure Msg where
  role : Option String
  content : Option SysVal
deriving DecidableEq

/-- A request body: optional model, optional system field, messages array
(an absent array is the empty list). -/
structure Body where
  model : Option String
  system : Option SysVal
  messages : List Msg
deriving DecidableEq

/-- Python truthiness of an optional string: None and the empty string are
falsy. -/
def optTruthy : Option String → Bool
  | none => false
  | some s => !(s = "")

/-! ## src/python/claude_proxy/hooks/callbacks.py -/

namespace Callbacks

def ZAI_MODEL_MAP : List (String × String) :=
  [("zai-haiku", "anthropic/claude-3-5-haiku-20241022"),
   ("zai-sonnet", "anthropic/claude-sonnet-4-20250514"),
   ("zai-opus", "anthropic/claude-opus-4-5-20251101")]

def MODEL_ALIAS_MAP : List (String × String) :=
  [("haiku", "claude-3-5-haiku-20241022"),
   ("sonnet", "claude-sonnet-4-20250514"),
   ("opus", "claude-opus-4-5-20251101")]

def ZAI_API_BASE : String := "https://api.z.ai/api/anthropic"

def DEFAULT_API_BASE : String := "https://api.anthropic.com/v1/messages"

/-- Embedding of callbacks.compute_agent_hash: join text blocks when the
prompt is a block list, cut everything from the first bare Notes: marker,
sha256, first 16 hex characters.  Unlike utils.compute_agent_hash this
variant checks only the bare marker and does not strip whitespace. -/
def compute_agent_hash (system_prompt : SysVal) : String :=
  let s : String :=
    match system_prompt with
    | .str s => s
    | .blocks bs => joinSpace (blockTexts bs)
  let l := s.toList
  let l2 := if containsSub "Notes:".toList l then takeBeforeFirst "Notes:".toList l else l
  String.mk ((bytesToHex (sha256 (utf8Encode l2))).take 16)

/-- Embedding of callbacks.extract_system_prompt: the content of the first
message whose role is system, block lists joined to one string. -/
def extract_system_prompt : List Msg → Option String
  | [] => none
  | m :: rest =>
    if m.role = some "system" then
      match m.content.getD (.str "") with
      | .str s => some s
      | .blocks bs => some (joinSpace (blockTexts bs))
    else extract_system_prompt rest

/-- The system-prompt selection at the top of determine_routing: the body
system field if truthy, otherwise the result of scanning the messages
array. -/
def routingSystemPrompt (body : Body) : Option SysVal :=
  match body.system with
  | some v => if sysTruthy v then some v else (extract_system_prompt body.messages).map SysVal.str
  | none => (extract_system_prompt body.messages).map SysVal.str

/-- The effective system prompt determine_routing acts on: the selected
value when it is truthy, nothing otherwise. -/
def effective_system (body : Body) : Option SysVal :=
  match routingSystemPrompt body with
  | some v => if sysTruthy v then some v else none
  | none => none

/-- Embedding of callbacks.determine_routing.  The ZAI_API_KEY environment
variable is passed explicitly.  Returns the api base url, the model to
use and the optional alternate-provider api key. -/
def determine_routing (body : Body) (agent_registry : List (String × String))
    (zai_api_key : Option String) : String × String × Option String :=
  let original_model := body.model.getD "claude-sonnet-4-20250514"
  match routingSystemPrompt body with
  | none => (DEFAULT_API_BASE, original_model, none)
  | some v =>
    if !sysTruthy v || agent_registry.isEmpty then
      (DEFAULT_API_BASE, original_model, none)
    else
      let agent_hash := compute_agent_hash v
      match agent_registry.lookup agent_hash with
      | none => (DEFAULT_API_BASE, original_model, none)
      | some target_alias =>
        if pyStartsWith "zai-" target_alias then
          if !optTruthy zai_api_key then
            let standard_alias := pyReplace target_alias "zai-" ""
            (DEFAULT_API_BASE, (MODEL_ALIAS_MAP.lookup standard_alias).getD original_model, none)
          else
            match ZAI_MODEL_MAP.lookup target_alias with
            | none => (DEFAULT_API_BASE, original_model, none)
            | some resolved =>
              if resolved = "" then (DEFAULT_API_BASE, original_model, none)
              else (ZAI_API_BASE, resolved, zai_api_key)
        else
          (DEFAULT_API_BASE, (MODEL_ALIAS_MAP.lookup target_alias).getD original_model, none)

end Callbacks

/-! ## Outbound header construction for the oauth path of
_handle_messages_request (callbacks.py lines 508-551).

Headers are modelled as association lists keyed by the lowercase header
names the code uses; dict assignment is cons at the front, so lookup
observes the most recent binding. -/

namespace Callbacks

def forwardHeaderNames : List String :=
  ["user-agent", "x-app", "anthropic-beta",
   "anthropic-dangerous-direct-browser-access",
   "anthropic-version",
   "x-stainless-arch", "x-stainless-lang", "x-stainless-os",
   "x-stainless-package-version", "x-stainless-retry-count",
   "x-stainless-runtime", "x-stainless-runtime-version",
   "x-stainless-timeout"]

def containsStr (needle hay : String) : Bool := containsSub needle.toList hay.toList

/-- The outbound header map built on the oauth path: forward the
identifying headers (never authorization), substitute the cached oauth
token, pick the anthropic version, set content headers, then make sure
the oauth beta token is present in the anthropic-beta header. -/
def build_oauth_headers (request_headers : List (String × String)) (oauth_token : String) :
    List (String × String) :=
  let h1 : List (String × String) :=
    if request_headers.isEmpty then []
    else
      forwardHeaderNames.foldl
        (fun acc k =>
          match request_headers.lookup k with
          | some v => (k, v) :: acc
          | none => acc) []
  let h2 := ("authorization", "Bearer " ++ oauth_token) :: h1
  let h3 := ("anthropic-version",
      if request_headers.isEmpty then "2023-06-01"
      else (request_headers.lookup "anthropic-version").getD "2023-06-01") :: h2
  let h4 := ("content-type", "application/json") :: h3
  let h5 := ("accept", "application/json") :: h4
  let existing_beta := (h5.lookup "anthropic-beta").getD ""
  if containsStr "oauth-2025-04-20" existing_beta then h5
  else
    ("anthropic-beta",
      if !(existing_beta = "") then "oauth-2025-04-20," ++ existing_beta
      else "oauth-2025-04-20") :: h5

/-- build_oauth_headers rewritten over an abstract lookup function; used
to prove that the construction reads the inbound headers only through
lookups at fixed names. -/
def build_oauth_headers_core (find : String → Option String) (oauth_token : String) :
    List (String × String) :=
  let h1 : List (String × String) :=
    forwardHeaderNames.foldl
      (fun acc k =>
        match find k with
        | some v => (k, v) :: acc
        | none => acc) []
  let h2 := ("authorization", "Bearer " ++ oauth_token) :: h1
  let h3 := ("anthropic-version", (find "anthropic-version").getD "2023-06-01") :: h2
  let h4 := ("content-type", "application/json") :: h3
  let h5 := ("accept", "application/json") :: h4
  let existing_beta := (h5.lookup "anthropic-beta").getD ""
  if containsStr "oauth-2025-04-20" existing_beta then h5
  else
    ("anthropic-beta",
      if !(existing_beta = "") then "oauth-2025-04-20," ++ existing_beta
      else "oauth-2025-04-20") :: h5

/-- The canonical Claude Code system sentence required by the upstream. -/
def CLAUDE_CODE_SYSTEM_SENTENCE : String :=
  "You are Claude Code, Anthropic\x27s official CLI for Claude."

/-- The synthetic text segment injected ahead of existing system content.
The cache_control marker of the python dict is not observed by any claim
and is not modelled. -/
def claude_code_block : SysBlock := .blk (some "text") (some CLAUDE_CODE_SYSTEM_SENTENCE)

/-- The needs_injection decision of _handle_messages_request: inject when
the system field is falsy, when the first block is not a dict, or when
the leading text does not start with the canonical sentence. -/
def needs_injection : Option SysVal → Bool
  | none => true
  | some (.str s) =>
    if s = "" then true else !(pyStartsWith CLAUDE_CODE_SYSTEM_SENTENCE s)
  | some (.blocks bs) =>
    match bs with
    | [] => true
    | .blk _ tx :: _ => !(pyStartsWith CLAUDE_CODE_SYSTEM_SENTENCE (tx.getD ""))
    | .nondict :: _ => true

/-- The body-system normalization of _handle_messages_request: when
injection is needed, prepend the synthetic segment; a falsy system field
is replaced outright, a block list is prepended to, a plain string is
kept as a second text segment. -/
def normalize_system (system_prompt : Option SysVal) : Option SysVal :=
  if needs_injection system_prompt then
    match system_prompt with
    | none => some (.blocks [claude_code_block])
    | some v =>
      if !sysTruthy v then some (.blocks [claude_code_block])
      else
        match v with
        | .blocks bs => some (.blocks (claude_code_block :: bs))
        | .str s => some (.blocks [claude_code_block, .blk (some "text") (some s)])
  else system_prompt

end Callbacks

/-! ## The streaming relay of _handle_messages_request (callbacks.py
lines 628-651), rendered as the list of events the generator yields for a
given upstream behavior. -/

/-- Upstream behavior on one streaming call: initial status, body text
read on error, the byte chunks delivered before any transport failure,
and the optional mid-stream exception. -/
structure UpstreamBehavior where
  status : Nat
  errorBody : String
  chunks : List String
  midError : Option String
deriving DecidableEq

inductive StreamEvent where
  | errEvent (message : String) (status : Nat)
  | dataChunk (chunk : String)
  | excEvent (message : String)
deriving DecidableEq

namespace Callbacks

/-- The events yielded by the stream_response generator: on a non-200
initial status exactly one terminal error event carrying body and status;
on 200 the chunks verbatim, followed by one exception event when a
transport error interrupts the stream. -/
def stream_response (u : UpstreamBehavior) : List StreamEvent :=
  if u.status ≠ 200 then [.errEvent u.errorBody u.status]
  else
    (u.chunks.map .dataChunk) ++
      (match u.midError with
       | some m => [.excEvent m]
       | none => [])

/-- The exit paths of the generator. -/
inductive RelayExit where
  | upstreamError
  | midException
  | normalDone
deriving DecidableEq

def relay_exit (u : UpstreamBehavior) : RelayExit :=
  if u.status ≠ 200 then .upstreamError
  else if u.midError.isSome then .midException
  else .normalDone

/-- The finally clause closes response and client on every exit path. -/
def relay_closes : RelayExit → Bool
  | .upstreamError => true
  | .midException => true
  | .normalDone => true

end Callbacks

/-! ## JSON payloads for the registry loader (callbacks.load_agent_registry) -/

/-- JSON values as far as the registry loader observes them. -/
inductive JVal where
  | jstr (s : String)
  | jobj (fields : List (String × JVal))
  | jarr (elems : List JVal)

/-- Dict key lookup on an object field list. -/
def jLookup (k : String) : List (String × JVal) → Option JVal
  | [] => none
  | (k2, v) :: rest => if k2 = k then some v else jLookup k rest

namespace Callbacks

/-- The dict comprehension over an agents array: every record must be a
dict carrying a hash (modelled as a string); a missing hash raises, which
the caller turns into the empty registry, rendered here as none.  An
absent model field defaults to sonnet. -/
def build_agents_map : List JVal → Option (List (String × JVal))
  | [] => some []
  | .jobj afs :: rest =>
    (match jLookup "hash" afs with
     | some (.jstr h) =>
       (build_agents_map rest).map (fun r => (h, (jLookup "model" afs).getD (.jstr "sonnet")) :: r)
     | _ => none)
  | _ :: _ => none

/-- Embedding of callbacks.load_agent_registry shape detection: a dict
with a mappings field yields that field, else a dict with an agents field
yields the converted record array (an exception during conversion, and an
agents value that is not an array, yield the empty registry), else the
payload itself is returned. -/
def load_agent_registry (data : JVal) : JVal :=
  match data with
  | .jobj fs =>
    (match jLookup "mappings" fs with
     | some m => m
     | none =>
       match jLookup "agents" fs with
       | some (.jarr arr) =>
         (match build_agents_map arr with
          | some entries => .jobj entries
          | none => .jobj [])
       | some _ => .jobj []
       | none => data)
  | _ => data

end Callbacks

/-! ## src/python/claude_proxy/registry/agent_hashes.py -/

/-- The module-level registry cache: the mapping and the loaded flag. -/
structure RegState where
  registry : List (String × String)
  loaded : Bool
deriving DecidableEq

/-- The backing registry file as load_registry observes it: missing,
unparsable, or parsed json with an optional mappings field. -/
inductive RegFile where
  | missing
  | malformed
  | parsed (mappings : Option (List (String × String)))
deriving DecidableEq

namespace AgentHashes

/-- Embedding of agent_hashes.load_registry.  The third component records
whether the backing store was read on this call. -/
def load_registry (file : RegFile) (st : RegState) :
    List (String × String) × RegState × Bool :=
  if st.loaded then (st.registry, st, false)
  else
    match file with
    | .parsed mappings =>
      let reg := mappings.getD []
      (reg, RegState.mk reg true, true)
    | .missing => ([], RegState.mk [] true, true)
    | .malformed => ([], RegState.mk [] true, true)

/-- Embedding of agent_hashes.reload_registry: clear the loaded flag, then
load. -/
def reload_registry (file : RegFile) (st : RegState) :
    List (String × String) × RegState × Bool :=
  load_registry file (RegState.mk st.registry false)

/-- Embedding of agent_hashes.get_registry. -/
def get_registry (file : RegFile) (st : RegState) :
    List (String × String) × RegState × Bool :=
  load_registry file st

/-- Embedding of agent_hashes.get_model_for_hash. -/
def get_model_for_hash (agent_hash : String) (file : RegFile) (st : RegState) :
    Option String × RegState × Bool :=
  let (reg, st2, rd) := load_registry file st
  (reg.lookup agent_hash, st2, rd)

end AgentHashes

/-! ## src/python/fst_claude_proxy/hooks/oauth_hook.py -/

/-- The cached credential value (the claudeAiOauth dict). -/
structure Credential where
  accessToken : String
deriving DecidableEq

/-- The module-level credential cache: the cached token and the time of the
last successful read. -/
structure OauthCacheState where
  token : Option Credential
  lastLoad : Nat
deriving DecidableEq

/-- The credentials file as load_oauth_credentials observes it: missing,
unparsable, or parsed json whose claudeAiOauth field may be absent. -/
inductive CredFile where
  | missing
  | malformed
  | parsed (claudeAiOauth : Option Credential)
deriving DecidableEq

namespace OauthHook

def CACHE_TTL_SECONDS : Nat := 60

/-- Embedding of oauth_hook.load_oauth_credentials.  Time is passed
explicitly in whole seconds; subtraction on Nat matches the python float
subtraction for the monotone clocks involved.  Returns the result and the
new cache state. -/
def load_oauth_credentials (force : Bool) (now : Nat) (file : CredFile)
    (st : OauthCacheState) : Option Credential × OauthCacheState :=
  if !force && st.token.isSome && (now - st.lastLoad < CACHE_TTL_SECONDS) then
    (st.token, st)
  else
    match file with
    | .parsed oauth => (oauth, OauthCacheState.mk oauth now)
    | .missing => (none, st)
    | .malformed => (none, st)

/-- Embedding of oauth_hook.invalidate_credential_cache. -/
def invalidate_credential_cache (_st : OauthCacheState) : OauthCacheState :=
  OauthCacheState.mk none 0

end OauthHook

/-! ## Auxiliary notions used only to state claims -/

/-- Removing one leading occurrence of pre, as the words strip the
provider marker from the front describe it (contrast pyReplace, which
removes every occurrence). -/
def dropLeading (pre s : String) : String :=
  if pre.toList.isPrefixOf s.toList then String.mk (s.toList.drop pre.toList.length) else s

/-- The normalized system field starts with the canonical sentence: as the
start of the string, or as the text of the first segment of the list. -/
def startsWithCanonical : Option SysVal → Prop
  | some (.str s) => pyStartsWith Callbacks.CLAUDE_CODE_SYSTEM_SENTENCE s = true
  | some (.blocks (SysBlock.blk _ tx :: _)) =>
      pyStartsWith Callbacks.CLAUDE_CODE_SYSTEM_SENTENCE (tx.getD "") = true
  | _ => False

/-! # Theorems -/

/-! ## Sanity checks for the sha256 model (FIPS 180-4 test vectors) -/

example :
    bytesToHex (sha256 (utf8Encode "abc".toList)) =
      "ba7816bf8f01cfea414140de5dae2223b00361a396177a9cb410ff61f20015ad".toList := by
  decide

example :
    bytesToHex (sha256 (utf8Encode "".toList)) =
      "e3b0c44298fc1c149afbf4c8996fb92427ae41e4649b934ca495991b7852b855".toList := by
  decide

/-! ## C10: registry cache stickiness -/

theorem AgentHashes.loaded_after_load (f : RegFile) (st : RegState) :
    ((AgentHashes.load_registry f st).2.1).loaded = true := by
  unfold AgentHashes.load_registry
  by_cases h : st.loaded
  · simp [h]
  · cases f <;> simp [h]

/-- C10: after any load attempt completes, even a failed one yielding the
empty mapping, every later load_registry, get_registry and
get_model_for_hash call returns the cached mapping without reading the
backing store, whatever the store now holds, while reload_registry does
read again. -/
theorem registry_cache_sticky (f0 f1 : RegFile) (st0 : RegState) (h : String) :
    (AgentHashes.load_registry f1 (AgentHashes.load_registry f0 st0).2.1 =
      (((AgentHashes.load_registry f0 st0).2.1).registry,
       (AgentHashes.load_registry f0 st0).2.1, false)) ∧
    (AgentHashes.get_registry f1 (AgentHashes.load_registry f0 st0).2.1 =
      (((AgentHashes.load_registry f0 st0).2.1).registry,
       (AgentHashes.load_registry f0 st0).2.1, false)) ∧
    (AgentHashes.get_model_for_hash h f1 (AgentHashes.load_registry f0 st0).2.1 =
      ((((AgentHashes.load_registry f0 st0).2.1).registry).lookup h,
       (AgentHashes.load_registry f0 st0).2.1, false)) ∧
    ((AgentHashes.reload_registry f1 (AgentHashes.load_registry f0 st0).2.1).2.2 = true) := by
  have hl := AgentHashes.loaded_after_load f0 st0
  set st1 := (AgentHashes.load_registry f0 st0).2.1 with hst1
  refine ⟨?_, ?_, ?_, ?_⟩
  · unfold AgentHashes.load_registry
    simp [hl]
  · unfold AgentHashes.get_registry AgentHashes.load_registry
    simp [hl]
  · unfold AgentHashes.get_model_for_hash AgentHashes.load_registry
    simp [hl]
  · unfold AgentHashes.reload_registry AgentHashes.load_registry
    cases f1 <;> simp

/-! ## C9: registry loader payload shapes -/

/-- C9: the loader accepts the three payload shapes in detection order:
a mappings field wins, else an agents record array is converted with
model defaulting to sonnet, else the payload itself is the map. -/
theorem loader_shape_detection :
    (∀ fs m, jLookup "mappings" fs = some m →
      Callbacks.load_agent_registry (.jobj fs) = m) ∧
    (∀ fs arr entries, jLookup "mappings" fs = none →
      jLookup "agents" fs = some (.jarr arr) →
      Callbacks.build_agents_map arr = some entries →
      Callbacks.load_agent_registry (.jobj fs) = .jobj entries) ∧
    (∀ afs h rest racc, jLookup "hash" afs = some (.jstr h) →
      jLookup "model" afs = none →
      Callbacks.build_agents_map rest = some racc →
      Callbacks.build_agents_map (.jobj afs :: rest) = some ((h, .jstr "sonnet") :: racc)) ∧
    (∀ fs, jLookup "mappings" fs = none → jLookup "agents" fs = none →
      Callbacks.load_agent_registry (.jobj fs) = .jobj fs) := by
  refine ⟨?_, ?_, ?_, ?_⟩
  · intro fs m hm
    unfold Callbacks.load_agent_registry
    simp [hm]
  · intro fs arr entries hm ha hb
    unfold Callbacks.load_agent_registry
    simp [hm, ha, hb]
  · intro afs h rest racc hh hmod hrest
    unfold Callbacks.build_agents_map
    simp [hh, hmod, hrest]
  · intro fs hm ha
    unfold Callbacks.load_agent_registry
    simp [hm, ha]

/-- Witness for C9 at concrete payloads of each shape. -/
theorem loader_shape_detection_witness :
    Callbacks.load_agent_registry
        (.jobj [("mappings", .jobj [("h1", .jstr "opus")])]) =
      .jobj [("h1", .jstr "opus")] ∧
    Callbacks.load_agent_registry
        (.jobj [("agents", .jarr [.jobj [("hash", .jstr "h2")]])]) =
      .jobj [("h2", .jstr "sonnet")] ∧
    Callbacks.load_agent_registry (.jobj [("h3", .jstr "haiku")]) =
      .jobj [("h3", .jstr "haiku")] := by
  refine ⟨loader_shape_detection.1 _ _ rfl, ?_, ?_⟩
  · exact loader_shape_detection.2.1 _ _ _ rfl rfl
      (loader_shape_detection.2.2.1 _ "h2" [] [] rfl rfl rfl)
  · exact loader_shape_detection.2.2.2 _ rfl rfl

/-! ## C4: credential cache behavior when a refresh fails -/

/-- C4 counterexample: a cached credential whose TTL has elapsed, with the
backing file now missing, makes the call report absence, not the cached
credential the claim promises. -/
theorem credential_cache_stale_counterexample :
    OauthHook.load_oauth_credentials false 100 .missing
        (OauthCacheState.mk (some (Credential.mk "tok")) 0) =
      (none, OauthCacheState.mk (some (Credential.mk "tok")) 0) ∧
    (none : Option Credential) ≠ some (Credential.mk "tok") := by
  refine ⟨rfl, by decide⟩

/-- C4 amended: after the TTL has elapsed, a failed fresh read makes
get(force=false) return absence while leaving the stale credential and
its timestamp cached; the cached credential itself is returned exactly by
the calls made before the TTL elapses. -/
theorem credential_cache_ttl_expired_failure (st : OauthCacheState) (now : Nat) (file : CredFile)
    (htok : st.token.isSome = true)
    (hfail : file = .missing ∨ file = .malformed) :
    (¬ (now - st.lastLoad < OauthHook.CACHE_TTL_SECONDS) →
      OauthHook.load_oauth_credentials false now file st = (none, st)) ∧
    ((now - st.lastLoad < OauthHook.CACHE_TTL_SECONDS) →
      OauthHook.load_oauth_credentials false now file st = (st.token, st)) := by
  constructor
  · intro httl
    unfold OauthHook.load_oauth_credentials
    rcases hfail with h | h <;> subst h <;> simp [httl]
  · intro httl
    unfold OauthHook.load_oauth_credentials
    simp [htok, httl]

/-- Witness for C4 amended at a concrete cache state, both after and
before TTL expiry. -/
theorem credential_cache_ttl_expired_failure_witness :
    OauthHook.load_oauth_credentials false 100 .missing
        (OauthCacheState.mk (some (Credential.mk "t")) 0) =
      (none, OauthCacheState.mk (some (Credential.mk "t")) 0) ∧
    OauthHook.load_oauth_credentials false 10 .missing
        (OauthCacheState.mk (some (Credential.mk "t")) 0) =
      (some (Credential.mk "t"), OauthCacheState.mk (some (Credential.mk "t")) 0) := by
  constructor
  · exact (credential_cache_ttl_expired_failure
      (OauthCacheState.mk (some (Credential.mk "t")) 0) 100 .missing rfl (Or.inl rfl)).1
      (by decide)
  · exact (credential_cache_ttl_expired_failure
      (OauthCacheState.mk (some (Credential.mk "t")) 0) 10 .missing rfl (Or.inl rfl)).2
      (by decide)

/-! ## C7: streaming relay error containment -/

/-- C7 counterexample: the code tests status != 200, not non-2xx; a 201
initial response yields the terminal error event, not the data chunks the
claim promises for every 2xx response. -/
theorem streaming_2xx_counterexample :
    Callbacks.stream_response (UpstreamBehavior.mk 201 "Created" ["hello"] none) =
      [StreamEvent.errEvent "Created" 201] ∧
    Callbacks.stream_response (UpstreamBehavior.mk 201 "Created" ["hello"] none) ≠
      ["hello"].map StreamEvent.dataChunk := by
  refine ⟨rfl, by decide⟩

/-- C7 amended: a non-200 initial response yields exactly one terminal
error event carrying the upstream status and body and no data chunks; a
200 response with no transport failure yields the upstream chunks
verbatim; the finally clause closes response and client on every exit
path. -/
theorem streaming_error_containment (u : UpstreamBehavior) :
    (u.status ≠ 200 →
      Callbacks.stream_response u = [StreamEvent.errEvent u.errorBody u.status]) ∧
    (u.status = 200 → u.midError = none →
      Callbacks.stream_response u = u.chunks.map StreamEvent.dataChunk) ∧
    Callbacks.relay_closes (Callbacks.relay_exit u) = true := by
  refine ⟨?_, ?_, ?_⟩
  · intro h
    simp [Callbacks.stream_response, h]
  · intro h1 h2
    simp [Callbacks.stream_response, h1, h2]
  · cases h : Callbacks.relay_exit u <;> rfl

/-- Witness for C7 amended: a 500 upstream produces one error event and no
chunks, a 200 upstream passes its chunks through. -/
theorem streaming_error_containment_witness :
    Callbacks.stream_response (UpstreamBehavior.mk 500 "boom" ["x"] none) =
      [StreamEvent.errEvent "boom" 500] ∧
    Callbacks.stream_response (UpstreamBehavior.mk 200 "" ["a", "b"] none) =
      [StreamEvent.dataChunk "a", StreamEvent.dataChunk "b"] := by
  constructor
  · exact (streaming_error_containment (UpstreamBehavior.mk 500 "boom" ["x"] none)).1
      (by decide)
  · have h := (streaming_error_containment (UpstreamBehavior.mk 200 "" ["a", "b"] none)).2.1
      rfl rfl
    simpa using h

/-! ## C2: routing default decision -/

/-- C2: with no effective system prompt, an empty registry, or a
fingerprint that is not a registry key, determine_routing returns the
default upstream, the original requested model and no alternate-provider
key. -/
theorem routing_default_decision (body : Body) (reg : List (String × String))
    (zai : Option String)
    (h : Callbacks.effective_system body = none ∨ reg = [] ∨
         ∀ v, Callbacks.effective_system body = some v →
           reg.lookup (Callbacks.compute_agent_hash v) = none) :
    Callbacks.determine_routing body reg zai =
      (Callbacks.DEFAULT_API_BASE, body.model.getD "claude-sonnet-4-20250514", none) := by
  unfold Callbacks.determine_routing
  cases hr : Callbacks.routingSystemPrompt body with
  | none => simp [hr]
  | some v =>
    by_cases ht : sysTruthy v
    · have hv : Callbacks.effective_system body = some v := by
        unfold Callbacks.effective_system
        rw [hr]
        simp [ht]
      rcases h with h | h | h
      · rw [hv] at h
        exact absurd h (by simp)
      · subst h
        simp [hr]
      · have hl := h v hv
        by_cases he : reg.isEmpty <;> simp [hr, ht, hl, he]
    · have ht2 : sysTruthy v = false := by simpa using ht
      simp [hr, ht2]

/-- Witness for C2 at a body without any system prompt. -/
theorem routing_default_decision_witness :
    Callbacks.determine_routing (Body.mk (some "m0") none []) [("k", "opus")] none =
      (Callbacks.DEFAULT_API_BASE, "m0", none) := by
  exact routing_default_decision (Body.mk (some "m0") none []) [("k", "opus")] none
    (Or.inl rfl)

/-! ## C1: the fingerprint pipeline -/

theorem stripLoop_eq_find (seps : List (List Char)) (p : List Char) :
    Utils.stripSeparatorLoop seps p =
      (match seps.find? (fun m => containsSub m p) with
       | some m => takeBeforeFirst m p
       | none => p) := by
  induction seps with
  | nil => rfl
  | cons s rest ih =>
    unfold Utils.stripSeparatorLoop
    cases h : containsSub s p <;> simp [List.find?, h, ih]

/-- C1: utils.compute_agent_hash implements exactly the spec pipeline:
search the volatile markers in precedence order, truncate at the first
occurrence of the first matching pattern (one strip only, full text when
none match), trim surrounding whitespace, utf-8 encode, sha256, first 16
hex characters. -/
theorem fingerprint_matches_spec (prompt : String) :
    Utils.compute_agent_hash prompt true = SpecModel.fingerprintSpec prompt := by
  unfold Utils.compute_agent_hash SpecModel.fingerprintSpec
  simp only [if_true, stripLoop_eq_find]

/-! ## C3: alternate-provider routing -/

/-- C3 counterexample: the code removes every occurrence of the zai-
marker (str.replace), not just the leading one.  For the registry target
zai-zai-opus with no alternate credential, stripping only the leading
marker would leave zai-opus, which the primary alias table does not map,
so the claim promises the original requested model; the code instead
resolves opus. -/
theorem routing_zai_strip_counterexample :
    Callbacks.determine_routing (Body.mk none (some (SysVal.str "agent")) [])
        [(Callbacks.compute_agent_hash (SysVal.str "agent"), "zai-zai-opus")] none =
      (Callbacks.DEFAULT_API_BASE, "claude-opus-4-5-20251101", none) ∧
    dropLeading "zai-" "zai-zai-opus" = "zai-opus" ∧
    Callbacks.MODEL_ALIAS_MAP.lookup "zai-opus" = none ∧
    "claude-opus-4-5-20251101" ≠ "claude-sonnet-4-20250514" := by
  refine ⟨by decide, by decide, by decide, by decide⟩

/-- C3 amended: on a registry hit whose target carries the zai- marker,
a missing or empty alternate-provider credential makes determine_routing
remove every occurrence of the marker (python str.replace) and resolve
the result through the primary alias table against the default upstream,
falling back to the original model when unmapped; with the credential
configured, a target outside the alternate alias table yields the default
decision entirely. -/
theorem routing_zai_paths (body : Body) (reg : List (String × String))
    (zai : Option String) (v : SysVal) (target : String)
    (hv : Callbacks.effective_system body = some v)
    (hl : reg.lookup (Callbacks.compute_agent_hash v) = some target)
    (hz : pyStartsWith "zai-" target = true) :
    (optTruthy zai = false →
      Callbacks.determine_routing body reg zai =
        (Callbacks.DEFAULT_API_BASE,
         (Callbacks.MODEL_ALIAS_MAP.lookup (pyReplace target "zai-" "")).getD
           (body.model.getD "claude-sonnet-4-20250514"), none)) ∧
    (optTruthy zai = true → Callbacks.ZAI_MODEL_MAP.lookup target = none →
      Callbacks.determine_routing body reg zai =
        (Callbacks.DEFAULT_API_BASE, body.model.getD "claude-sonnet-4-20250514", none)) := by
  have hne : reg.isEmpty = false := by
    cases reg with
    | nil => simp [List.lookup] at hl
    | cons a rest => rfl
  obtain ⟨hr, ht⟩ : Callbacks.routingSystemPrompt body = some v ∧ sysTruthy v = true := by
    unfold Callbacks.effective_system at hv
    cases hrr : Callbacks.routingSystemPrompt body with
    | none => rw [hrr] at hv; exact absurd hv (by simp)
    | some v2 =>
      rw [hrr] at hv
      by_cases htt : sysTruthy v2
      · simp only [htt, if_true, Option.some.injEq] at hv
        refine ⟨?_, ?_⟩
        · rw [hv]
        · rw [← hv]
          exact htt
      · simp [htt] at hv
  constructor
  · intro hzai
    unfold Callbacks.determine_routing
    simp [hr, ht, hne, hl, hz, hzai]
  · intro hzai hmiss
    unfold Callbacks.determine_routing
    simp [hr, ht, hne, hl, hz, hzai, hmiss]

/-- Witness for C3 amended: a zai-opus target downgrades to the primary
opus model without a credential; an unknown zai target with a credential
falls back to the default decision. -/
theorem routing_zai_paths_witness :
    Callbacks.determine_routing (Body.mk none (some (SysVal.str "agent")) [])
        [(Callbacks.compute_agent_hash (SysVal.str "agent"), "zai-opus")] none =
      (Callbacks.DEFAULT_API_BASE, "claude-opus-4-5-20251101", none) ∧
    Callbacks.determine_routing (Body.mk none (some (SysVal.str "agent")) [])
        [(Callbacks.compute_agent_hash (SysVal.str "agent"), "zai-weird")] (some "key") =
      (Callbacks.DEFAULT_API_BASE, "claude-sonnet-4-20250514", none) := by
  constructor
  · have h := (routing_zai_paths (Body.mk none (some (SysVal.str "agent")) [])
      [(Callbacks.compute_agent_hash (SysVal.str "agent"), "zai-opus")] none
      (SysVal.str "agent") "zai-opus" rfl (by simp [List.lookup]) (by decide)).1 rfl
    simpa using h
  · have h := (routing_zai_paths (Body.mk none (some (SysVal.str "agent")) [])
      [(Callbacks.compute_agent_hash (SysVal.str "agent"), "zai-weird")] (some "key")
      (SysVal.str "agent") "zai-weird" rfl (by simp [List.lookup]) (by decide)).2 rfl
      (by decide)
    simpa using h

/-! ## C5 and C6: outbound header and body normalization -/

theorem isPre_append (p q r : List Char) (h : p.isPrefixOf q = true) :
    p.isPrefixOf (q ++ r) = true := by
  induction p generalizing q with
  | nil => simp only [List.isPrefixOf]
  | cons a as ih =>
    cases q with
    | nil =>
      simp only [List.isPrefixOf] at h
      exact absurd h (by decide)
    | cons b bs =>
      simp only [List.cons_append, List.isPrefixOf, Bool.and_eq_true] at h ⊢
      exact ⟨h.1, ih bs h.2⟩

theorem foldl_forward_congr (find1 find2 : String → Option String) (names : List String)
    (h : ∀ k ∈ names, find1 k = find2 k) (acc : List (String × String)) :
    names.foldl
        (fun acc k =>
          match find1 k with
          | some v => (k, v) :: acc
          | none => acc) acc =
      names.foldl
        (fun acc k =>
          match find2 k with
          | some v => (k, v) :: acc
          | none => acc) acc := by
  induction names generalizing acc with
  | nil => rfl
  | cons n rest ih =>
    simp only [List.foldl]
    rw [h n (by simp)]
    exact ih (fun k hk => h k (by simp [hk])) _

theorem build_core_congr (find1 find2 : String → Option String) (tok : String)
    (hf : ∀ k ∈ Callbacks.forwardHeaderNames, find1 k = find2 k)
    (hv : find1 "anthropic-version" = find2 "anthropic-version") :
    Callbacks.build_oauth_headers_core find1 tok =
      Callbacks.build_oauth_headers_core find2 tok := by
  simp only [Callbacks.build_oauth_headers_core]
  rw [hv, foldl_forward_congr find1 find2 _ hf []]

theorem contains_of_isPre (p l : List Char) (h : p.isPrefixOf l = true) :
    containsSub p l = true := by
  cases l with
  | nil => simpa [containsSub] using h
  | cons c rest => simp [containsSub, h]

theorem build_headers_eq_core (rh : List (String × String)) (tok : String) :
    Callbacks.build_oauth_headers rh tok =
      Callbacks.build_oauth_headers_core (fun k => rh.lookup k) tok := by
  cases rh <;> rfl

/-- C5: the outbound header map of the primary-provider path does not
depend on the caller-supplied authorization header, and its authorization
header is always the Bearer form of the cached oauth token. -/
theorem header_auth_independence :
    (∀ (rh1 rh2 : List (String × String)) (tok : String),
      (∀ k, k ≠ "authorization" → rh1.lookup k = rh2.lookup k) →
      Callbacks.build_oauth_headers rh1 tok = Callbacks.build_oauth_headers rh2 tok) ∧
    (∀ (rh : List (String × String)) (tok : String),
      (Callbacks.build_oauth_headers rh tok).lookup "authorization" =
        some ("Bearer " ++ tok)) := by
  constructor
  · intro rh1 rh2 tok h
    rw [build_headers_eq_core, build_headers_eq_core]
    refine build_core_congr _ _ tok ?_ (h "anthropic-version" (by decide))
    intro k hk
    refine h k ?_
    intro he
    subst he
    revert hk
    decide
  · intro rh tok
    rw [build_headers_eq_core]
    simp only [Callbacks.build_oauth_headers_core]
    split <;> simp [List.lookup]

/-- Witness for C5 at two concrete header maps differing only in the
authorization value. -/
theorem header_auth_independence_witness :
    Callbacks.build_oauth_headers [("authorization", "Bearer caller1"), ("x-app", "cli")] "tok" =
      Callbacks.build_oauth_headers [("authorization", "Bearer caller2"), ("x-app", "cli")] "tok" ∧
    (Callbacks.build_oauth_headers [("authorization", "Bearer caller1"), ("x-app", "cli")]
        "tok").lookup "authorization" = some ("Bearer tok") := by
  constructor
  · refine header_auth_independence.1 _ _ "tok" ?_
    intro k hk
    have hk2 : (k == "authorization") = false := by
      cases h : k == "authorization"
      · rfl
      · exact absurd (beq_iff_eq.mp h) hk
    simp [List.lookup, hk2]
  · have h := header_auth_independence.2
      [("authorization", "Bearer caller1"), ("x-app", "cli")] "tok"
    simpa using h

theorem toList_append (s t : String) : (s ++ t).toList = s.toList ++ t.toList := rfl

theorem contains_token_self :
    Callbacks.containsStr "oauth-2025-04-20" "oauth-2025-04-20" = true := by
  decide

theorem beta_fixup_value (existing : String) :
    Callbacks.containsStr "oauth-2025-04-20"
      (if !(existing = "") then "oauth-2025-04-20," ++ existing
       else "oauth-2025-04-20") = true := by
  by_cases hne : existing = ""
  · simpa [hne] using contains_token_self
  · have hcond : (!decide (existing = "")) = true := by simp [hne]
    rw [if_pos hcond]
    unfold Callbacks.containsStr
    apply contains_of_isPre
    rw [toList_append]
    exact isPre_append _ _ _ (by decide)

theorem beta_after_fixup (h5 : List (String × String)) :
    Callbacks.containsStr "oauth-2025-04-20"
      ((List.lookup "anthropic-beta"
        (if Callbacks.containsStr "oauth-2025-04-20"
              ((List.lookup "anthropic-beta" h5).getD "") then h5
         else ("anthropic-beta",
           if !(((List.lookup "anthropic-beta" h5).getD "") = "") then
             "oauth-2025-04-20," ++ ((List.lookup "anthropic-beta" h5).getD "")
           else "oauth-2025-04-20") :: h5)).getD "") = true := by
  by_cases hc : Callbacks.containsStr "oauth-2025-04-20"
      ((List.lookup "anthropic-beta" h5).getD "") = true
  · simp only [hc, if_true]
  · have hc2 : Callbacks.containsStr "oauth-2025-04-20"
        ((List.lookup "anthropic-beta" h5).getD "") = false := by
      simpa using hc
    simp only [hc2, Bool.false_eq_true, if_false, List.lookup, beq_self_eq_true,
      Option.getD_some]
    exact beta_fixup_value _

theorem pyStartsWith_sentence_self :
    pyStartsWith Callbacks.CLAUDE_CODE_SYSTEM_SENTENCE
      Callbacks.CLAUDE_CODE_SYSTEM_SENTENCE = true := by
  decide

/-- C6: on the primary-provider path, the normalized anthropic-beta
header always contains the oauth enablement token, and the normalized
system field begins with the canonical Claude Code sentence, as the start
of the string or as the text of the first segment of the list. -/
theorem normalization_completeness :
    (∀ (rh : List (String × String)) (tok : String),
      Callbacks.containsStr "oauth-2025-04-20"
        (((Callbacks.build_oauth_headers rh tok).lookup "anthropic-beta").getD "") = true) ∧
    (∀ sys : Option SysVal, startsWithCanonical (Callbacks.normalize_system sys)) := by
  constructor
  · intro rh tok
    rw [build_headers_eq_core]
    simp only [Callbacks.build_oauth_headers_core]
    exact beta_after_fixup _
  · intro sys
    rcases sys with _ | v
    · exact pyStartsWith_sentence_self
    rcases v with s | bs
    · by_cases hs : s = ""
      · subst hs
        exact pyStartsWith_sentence_self
      · by_cases hp : pyStartsWith Callbacks.CLAUDE_CODE_SYSTEM_SENTENCE s = true
        · simp only [Callbacks.normalize_system, Callbacks.needs_injection, hs, hp,
            startsWithCanonical, Bool.not_true, Bool.false_eq_true, if_false]
        · have hp2 : pyStartsWith Callbacks.CLAUDE_CODE_SYSTEM_SENTENCE s = false := by
            simpa using hp
          simp [Callbacks.normalize_system, Callbacks.needs_injection, hs, hp2,
            startsWithCanonical, sysTruthy, Callbacks.claude_code_block,
            pyStartsWith_sentence_self]
    · rcases bs with _ | ⟨b, rest⟩
      · exact pyStartsWith_sentence_self
      rcases b with ⟨ty, tx⟩ | _
      · by_cases hp : pyStartsWith Callbacks.CLAUDE_CODE_SYSTEM_SENTENCE (tx.getD "") = true
        · simp only [Callbacks.normalize_system, Callbacks.needs_injection, hp,
            startsWithCanonical, Bool.not_true, Bool.false_eq_true, if_false]
        · have hp2 : pyStartsWith Callbacks.CLAUDE_CODE_SYSTEM_SENTENCE (tx.getD "") = false := by
            simpa using hp
          simp [Callbacks.normalize_system, Callbacks.needs_injection, hp2,
            startsWithCanonical, sysTruthy, Callbacks.claude_code_block,
            pyStartsWith_sentence_self]
      · simp [Callbacks.normalize_system, Callbacks.needs_injection,
          startsWithCanonical, sysTruthy, Callbacks.claude_code_block,
          pyStartsWith_sentence_self]

/-! ## C8: volatile-suffix invariance.  Infrastructure about occurrences
of the marker in appended strings. -/

theorem isPre_iff (pat l : List Char) : pat.isPrefixOf l = true ↔ ∃ t, l = pat ++ t := by
  induction pat generalizing l with
  | nil =>
    simp only [List.isPrefixOf, List.nil_append]
    constructor
    · intro _
      exact ⟨l, rfl⟩
    · intro _
      trivial
  | cons a as ih =>
    cases l with
    | nil =>
      simp only [List.isPrefixOf]
      constructor
      · intro h
        exact absurd h (by decide)
      · rintro ⟨t, ht⟩
        exact absurd ht (by simp)
    | cons b bs =>
      simp only [List.isPrefixOf, Bool.and_eq_true, beq_iff_eq, List.cons_append]
      constructor
      · rintro ⟨rfl, h2⟩
        obtain ⟨t, rfl⟩ := (ih bs).mp h2
        exact ⟨t, rfl⟩
      · rintro ⟨t, ht⟩
        injection ht with h1 h2
        exact ⟨h1.symm, (ih bs).mpr ⟨t, h2⟩⟩

theorem contains_iff (pat l : List Char) : containsSub pat l = true ↔ OccursIn pat l := by
  induction l with
  | nil =>
    simp only [containsSub, OccursIn]
    rw [isPre_iff]
    constructor
    · rintro ⟨t, ht⟩
      exact ⟨[], t, by simpa using ht⟩
    · rintro ⟨a, b, hab⟩
      simp only [List.append_assoc, List.nil_eq, List.append_eq_nil] at hab
      refine ⟨[], ?_⟩
      rw [hab.2.1]
      rfl
  | cons c rest ih =>
    simp only [containsSub, Bool.or_eq_true]
    rw [isPre_iff, ih]
    constructor
    · rintro (⟨t, ht⟩ | ⟨a, b, hab⟩)
      · exact ⟨[], t, by simpa using ht⟩
      · exact ⟨c :: a, b, by simp [hab]⟩
    · rintro ⟨a, b, hab⟩
      cases a with
      | nil => exact Or.inl ⟨b, by simpa using hab⟩
      | cons x a2 =>
        right
        simp only [List.cons_append, List.cons.injEq] at hab
        exact ⟨a2, b, hab.2⟩

theorem not_occ_of_contains_false (pat l : List Char) (h : containsSub pat l = false) :
    ¬ OccursIn pat l := by
  intro ho
  rw [(contains_iff pat l).mpr ho] at h
  exact Bool.noConfusion h

theorem occ_mono (u v l : List Char) (h : OccursIn (u ++ v) l) : OccursIn v l := by
  obtain ⟨a, b, hab⟩ := h
  exact ⟨a ++ u, b, by rw [hab]; simp [List.append_assoc]⟩

theorem contains_marker_false (nl l : List Char) (h : containsSub notesL l = false) :
    containsSub (nl ++ notesL) l = false := by
  cases hb : containsSub (nl ++ notesL) l
  · rfl
  · exact absurd (occ_mono nl notesL l ((contains_iff _ _).mp hb))
      (not_occ_of_contains_false notesL l h)

theorem sep1_eq : "\n\nNotes:".toList = ['\n', '\n'] ++ notesL := by decide

theorem sep2_eq : "\nNotes:".toList = ['\n'] ++ notesL := by decide

theorem sep3_eq : "Notes:".toList = ([] : List Char) ++ notesL := by decide

theorem take_append_le {α : Type} (l1 l2 : List α) (n : Nat) (h : n ≤ l1.length) :
    (l1 ++ l2).take n = l1.take n := by
  induction l1 generalizing n with
  | nil =>
    simp only [List.length_nil, Nat.le_zero] at h
    simp [h]
  | cons a as ih =>
    cases n with
    | zero => simp
    | succ m =>
      simp only [List.cons_append, List.take_succ_cons]
      rw [ih m (by simpa using h)]

theorem tbf_cons (pat : List Char) (c : Char) (rest : List Char) :
    takeBeforeFirst pat (c :: rest) =
      if pat.isPrefixOf (c :: rest) then [] else c :: takeBeforeFirst pat rest := rfl

theorem tbf_no_occ_before (P Q pat : List Char)
    (h : ∀ a b, P ++ Q = a ++ pat ++ b → P.length ≤ a.length) :
    takeBeforeFirst pat (P ++ Q) = P ++ takeBeforeFirst pat Q := by
  induction P with
  | nil => simp
  | cons c P2 ih =>
    have hnp : pat.isPrefixOf (c :: (P2 ++ Q)) = false := by
      cases hb : pat.isPrefixOf (c :: (P2 ++ Q))
      · rfl
      · obtain ⟨t, ht⟩ := (isPre_iff _ _).mp hb
        have hc := h [] t (by simpa using ht)
        simp at hc
    rw [List.cons_append, tbf_cons, hnp]
    simp only [Bool.false_eq_true, if_false, List.cons_append, List.cons.injEq, true_and]
    apply ih
    intro a b hab
    have := h (c :: a) b (by simp [hab])
    simpa using this

theorem tbf_self_start (pat s : List Char) (h : pat ≠ []) :
    takeBeforeFirst pat (pat ++ s) = [] := by
  cases pat with
  | nil => exact absurd rfl h
  | cons a as =>
    show takeBeforeFirst (a :: as) (a :: (as ++ s)) = []
    unfold takeBeforeFirst
    rw [(isPre_iff _ _).mpr ⟨s, by simp⟩]
    simp

theorem notesL_len : notesL.length = 6 := by decide

theorem suffix_and_pre (t u w z : List Char) (htne : t ≠ [])
    (h1 : notesL = t ++ u) (h2 : notesL ++ w = u ++ z) : u = [] := by
  by_contra hu0
  have hlen : notesL.length = t.length + u.length := by
    have := congrArg List.length h1
    simpa using this
  have hNlen : notesL.length = 6 := notesL_len
  have hj1 : 1 ≤ u.length := List.length_pos.mpr hu0
  have ht1 : 1 ≤ t.length := List.length_pos.mpr htne
  have hj5 : u.length ≤ 5 := by omega
  have hdrop : u = notesL.drop t.length := by
    rw [h1, List.drop_left]
  have htake : u = notesL.take u.length := by
    have e1 : (u ++ z).take u.length = u := List.take_left u z
    have e2 : (notesL ++ w).take u.length = notesL.take u.length :=
      take_append_le _ _ _ (by omega)
    rw [← e2, h2, e1]
  have hcontra : notesL.take u.length = notesL.drop t.length := by
    rw [← htake, ← hdrop]
  have ht6 : t.length = 6 - u.length := by omega
  rw [ht6] at hcontra
  have hcases : u.length = 1 ∨ u.length = 2 ∨ u.length = 3 ∨ u.length = 4 ∨ u.length = 5 := by
    omega
  rcases hcases with hj | hj | hj | hj | hj <;> rw [hj] at hcontra <;>
    exact absurd hcontra (by decide)

theorem suffix_into_newlines (t u b nl : List Char) (htne : t ≠ [])
    (hnl : nl = [] ∨ nl = ['\n'] ∨ nl = ['\n', '\n'])
    (h1 : notesL = t ++ u) (h2 : nl = u ++ b) : u = [] := by
  by_contra hu0
  have hj1 : 1 ≤ u.length := List.length_pos.mpr hu0
  have ht1 : 1 ≤ t.length := List.length_pos.mpr htne
  have hlen : notesL.length = t.length + u.length := by
    have := congrArg List.length h1
    simpa using this
  have hNlen : notesL.length = 6 := notesL_len
  have hj2 : u.length ≤ 2 := by
    have := congrArg List.length h2
    rcases hnl with h0 | h0 | h0 <;> subst h0 <;> simp at this <;> omega
  have hdrop : u = notesL.drop t.length := by
    rw [h1, List.drop_left]
  have ht6 : t.length = 6 - u.length := by omega
  rw [ht6] at hdrop
  have hcases : u.length = 1 ∨ u.length = 2 := by omega
  rcases hcases with hj | hj
  · rw [hj] at hdrop
    have hu : u = [':'] := hdrop.trans (by decide)
    rw [hu] at h2
    rcases hnl with h0 | h0 | h0 <;> subst h0 <;> simp at h2
  · rw [hj] at hdrop
    have hu : u = ['s', ':'] := hdrop.trans (by decide)
    rw [hu] at h2
    rcases hnl with h0 | h0 | h0 <;> subst h0 <;> simp at h2

theorem occ_in_append_nl (p nl : List Char)
    (hnl : nl = [] ∨ nl = ['\n'] ∨ nl = ['\n', '\n'])
    (h : OccursIn notesL (p ++ nl)) : OccursIn notesL p := by
  obtain ⟨a, b, hab⟩ := h
  have hab2 : p ++ nl = a ++ (notesL ++ b) := by simpa [List.append_assoc] using hab
  rcases List.append_eq_append_iff.mp hab2 with ⟨t, ht1, ht2⟩ | ⟨t, ht1, ht2⟩
  · exfalso
    have hl := congrArg List.length ht2
    have h6 : notesL.length = 6 := notesL_len
    rcases hnl with h0 | h0 | h0 <;> subst h0 <;> simp [h6] at hl <;> omega
  · rcases List.append_eq_append_iff.mp ht2 with ⟨u, hu1, hu2⟩ | ⟨u, hu1, hu2⟩
    · exact ⟨a, u, by rw [ht1, hu1]; simp [List.append_assoc]⟩
    · by_cases ht0 : t = []
      · subst ht0
        exfalso
        have hlu := congrArg List.length hu1
        have hl := congrArg List.length hu2
        have h6 : notesL.length = 6 := notesL_len
        simp only [List.nil_append, List.length_append] at hlu hl
        rcases hnl with h0 | h0 | h0 <;> subst h0 <;> simp at hl <;> omega
      · have hu0 : u = [] := suffix_into_newlines t u b nl ht0 hnl hu1 hu2
        subst hu0
        refine ⟨a, [], ?_⟩
        rw [ht1]
        simp only [List.append_nil] at hu1
        rw [← hu1]
        simp

theorem notes_unique (p s nl : List Char)
    (hnl : nl = [] ∨ nl = ['\n'] ∨ nl = ['\n', '\n'])
    (hp : containsSub notesL p = false) (hs : containsSub notesL s = false) :
    ∀ a b, p ++ (nl ++ (notesL ++ s)) = a ++ (notesL ++ b) → a = p ++ nl ∧ b = s := by
  intro a b h
  have h2 : (p ++ nl) ++ (notesL ++ s) = a ++ (notesL ++ b) := by
    simpa [List.append_assoc] using h
  rcases List.append_eq_append_iff.mp h2 with ⟨t, ht1, ht2⟩ | ⟨t, ht1, ht2⟩
  · cases t with
    | nil =>
      constructor
      · simpa using ht1
      · have h3 := ht2
        simp only [List.nil_append] at h3
        exact (List.append_cancel_left h3).symm
    | cons x t2 =>
      exfalso
      rcases List.append_eq_append_iff.mp ht2 with ⟨u, hu1, hu2⟩ | ⟨u, hu1, hu2⟩
      · exact not_occ_of_contains_false _ _ hs
          ⟨u, b, by rw [hu2]; simp [List.append_assoc]⟩
      · have hu0 : u = [] := suffix_and_pre (x :: t2) u b s (by simp) hu1 hu2
        subst hu0
        simp only [List.nil_append] at hu2
        exact not_occ_of_contains_false _ _ hs ⟨[], b, by rw [← hu2]; simp⟩
  · cases t with
    | nil =>
      constructor
      · simpa using ht1.symm
      · have h3 := ht2
        simp only [List.nil_append] at h3
        exact List.append_cancel_left h3
    | cons x t2 =>
      exfalso
      rcases List.append_eq_append_iff.mp ht2 with ⟨u, hu1, hu2⟩ | ⟨u, hu1, hu2⟩
      · apply not_occ_of_contains_false _ _ hp
        apply occ_in_append_nl p nl hnl
        exact ⟨a, u, by rw [ht1, hu1]; simp [List.append_assoc]⟩
      · have hu0 : u = [] := suffix_and_pre (x :: t2) u s b (by simp) hu1 hu2
        subst hu0
        simp only [List.append_nil] at hu1
        apply not_occ_of_contains_false _ _ hp
        apply occ_in_append_nl p nl hnl
        exact ⟨a, [], by rw [ht1, ← hu1]; simp⟩

theorem marker_occ_eq (p s nl nlp q : List Char) (hq : p ++ nl = q ++ nlp) :
    p ++ (nl ++ notesL) ++ s = q ++ ((nlp ++ notesL) ++ s) := by
  have h1 : p ++ (nl ++ notesL) ++ s = (p ++ nl) ++ (notesL ++ s) := by
    simp [List.append_assoc]
  rw [h1, hq]
  simp [List.append_assoc]

theorem marker_contains_true (p s nl nlp q : List Char) (hq : p ++ nl = q ++ nlp) :
    containsSub (nlp ++ notesL) (p ++ (nl ++ notesL) ++ s) = true := by
  apply (contains_iff _ _).mpr
  exact ⟨q, s, by rw [marker_occ_eq p s nl nlp q hq]; simp [List.append_assoc]⟩

theorem marker_contains_false (p s nl nlp : List Char)
    (hnl : nl = [] ∨ nl = ['\n'] ∨ nl = ['\n', '\n'])
    (hp : containsSub notesL p = false) (hs : containsSub notesL s = false)
    (hno : ¬ EndsWith nlp (p ++ nl)) :
    containsSub (nlp ++ notesL) (p ++ (nl ++ notesL) ++ s) = false := by
  cases hb : containsSub (nlp ++ notesL) (p ++ (nl ++ notesL) ++ s)
  · rfl
  · exfalso
    obtain ⟨a, b, hab⟩ := (contains_iff _ _).mp hb
    have hab2 : p ++ (nl ++ (notesL ++ s)) = (a ++ nlp) ++ (notesL ++ b) := by
      simpa [List.append_assoc] using hab
    obtain ⟨h1, _⟩ := notes_unique p s nl hnl hp hs (a ++ nlp) b hab2
    exact hno ⟨a, h1.symm⟩

theorem marker_tbf (p s nl nlp q : List Char)
    (hnl : nl = [] ∨ nl = ['\n'] ∨ nl = ['\n', '\n'])
    (hp : containsSub notesL p = false) (hs : containsSub notesL s = false)
    (hq : p ++ nl = q ++ nlp) (hne : nlp ++ notesL ≠ []) :
    takeBeforeFirst (nlp ++ notesL) (p ++ (nl ++ notesL) ++ s) = q := by
  have hno : ∀ a b, q ++ ((nlp ++ notesL) ++ s) = a ++ (nlp ++ notesL) ++ b →
      q.length ≤ a.length := by
    intro a b hab
    have hab2 : p ++ (nl ++ (notesL ++ s)) = (a ++ nlp) ++ (notesL ++ b) := by
      have e1 : p ++ (nl ++ (notesL ++ s)) = q ++ ((nlp ++ notesL) ++ s) := by
        have e0 := marker_occ_eq p s nl nlp q hq
        simpa [List.append_assoc] using e0
      rw [e1, hab]
      simp [List.append_assoc]
    obtain ⟨h1, _⟩ := notes_unique p s nl hnl hp hs (a ++ nlp) b hab2
    have h2 : a ++ nlp = q ++ nlp := by rw [h1, hq]
    have ha : a = q := List.append_cancel_right h2
    simp [ha]
  rw [marker_occ_eq p s nl nlp q hq,
    tbf_no_occ_before q ((nlp ++ notesL) ++ s) (nlp ++ notesL) hno,
    tbf_self_start _ _ hne]
  simp

theorem pyStrip_append_space (l : List Char) (c : Char) (h : isPySpace c = true) :
    pyStrip (l ++ [c]) = pyStrip l := by
  unfold pyStrip trimTrail
  rw [List.reverse_append]
  simp [List.dropWhile_cons, h]

theorem pyStrip_append_nl (p nl : List Char)
    (hnl : nl = [] ∨ nl = ['\n'] ∨ nl = ['\n', '\n']) :
    pyStrip (p ++ nl) = pyStrip p := by
  rcases hnl with h | h | h <;> subst h
  · simp
  · exact pyStrip_append_space p '\n' (by decide)
  · have e : p ++ ['\n', '\n'] = (p ++ ['\n']) ++ ['\n'] := by simp
    rw [e, pyStrip_append_space _ '\n' (by decide), pyStrip_append_space _ '\n' (by decide)]

theorem strip_loop_cons (sep : List Char) (rest : List (List Char)) (p : List Char) :
    Utils.stripSeparatorLoop (sep :: rest) p =
      if containsSub sep p then takeBeforeFirst sep p
      else Utils.stripSeparatorLoop rest p := rfl

theorem strip_loop_cons_true (sep : List Char) (rest : List (List Char)) (p : List Char)
    (h : containsSub sep p = true) :
    Utils.stripSeparatorLoop (sep :: rest) p = takeBeforeFirst sep p := by
  rw [strip_loop_cons, h]
  simp

theorem strip_loop_cons_false (sep : List Char) (rest : List (List Char)) (p : List Char)
    (h : containsSub sep p = false) :
    Utils.stripSeparatorLoop (sep :: rest) p = Utils.stripSeparatorLoop rest p := by
  rw [strip_loop_cons, h]
  simp

theorem strip_loop_no_marker (p : List Char) (hp : containsSub notesL p = false) :
    Utils.stripSeparatorLoop Utils.volatileSeparators p = p := by
  have h1 : containsSub "\n\nNotes:".toList p = false := by
    rw [sep1_eq]
    exact contains_marker_false _ _ hp
  have h2 : containsSub "\nNotes:".toList p = false := by
    rw [sep2_eq]
    exact contains_marker_false _ _ hp
  have h3 : containsSub "Notes:".toList p = false := by
    rw [sep3_eq]
    exact contains_marker_false _ _ hp
  simp only [Utils.volatileSeparators]
  rw [strip_loop_cons_false _ _ _ h1, strip_loop_cons_false _ _ _ h2,
    strip_loop_cons_false _ _ _ h3]
  rfl

theorem strip_loop_marker_suffix (p s nl : List Char)
    (hnl : nl = [] ∨ nl = ['\n'] ∨ nl = ['\n', '\n'])
    (hp : containsSub notesL p = false) (hs : containsSub notesL s = false) :
    pyStrip (Utils.stripSeparatorLoop Utils.volatileSeparators (p ++ (nl ++ notesL) ++ s)) =
      pyStrip p := by
  simp only [Utils.volatileSeparators]
  by_cases e2 : EndsWith ['\n', '\n'] (p ++ nl)
  · obtain ⟨q, hq⟩ := e2
    have hc1 : containsSub "\n\nNotes:".toList (p ++ (nl ++ notesL) ++ s) = true := by
      rw [sep1_eq]
      exact marker_contains_true p s nl ['\n', '\n'] q hq
    rw [strip_loop_cons_true _ _ _ hc1, sep1_eq,
      marker_tbf p s nl ['\n', '\n'] q hnl hp hs hq (by decide)]
    have e3 : pyStrip (q ++ ['\n', '\n']) = pyStrip q :=
      pyStrip_append_nl q _ (Or.inr (Or.inr rfl))
    rw [← e3, ← hq]
    exact pyStrip_append_nl p nl hnl
  · by_cases e1 : EndsWith ['\n'] (p ++ nl)
    · obtain ⟨q, hq⟩ := e1
      have hc1 : containsSub "\n\nNotes:".toList (p ++ (nl ++ notesL) ++ s) = false := by
        rw [sep1_eq]
        exact marker_contains_false p s nl ['\n', '\n'] hnl hp hs e2
      have hc2 : containsSub "\nNotes:".toList (p ++ (nl ++ notesL) ++ s) = true := by
        rw [sep2_eq]
        exact marker_contains_true p s nl ['\n'] q hq
      rw [strip_loop_cons_false _ _ _ hc1, strip_loop_cons_true _ _ _ hc2, sep2_eq,
        marker_tbf p s nl ['\n'] q hnl hp hs hq (by decide)]
      have e3 : pyStrip (q ++ ['\n']) = pyStrip q :=
        pyStrip_append_nl q _ (Or.inr (Or.inl rfl))
      rw [← e3, ← hq]
      exact pyStrip_append_nl p nl hnl
    · have hc1 : containsSub "\n\nNotes:".toList (p ++ (nl ++ notesL) ++ s) = false := by
        rw [sep1_eq]
        exact marker_contains_false p s nl ['\n', '\n'] hnl hp hs e2
      have hc2 : containsSub "\nNotes:".toList (p ++ (nl ++ notesL) ++ s) = false := by
        rw [sep2_eq]
        exact marker_contains_false p s nl ['\n'] hnl hp hs e1
      have hc3 : containsSub "Notes:".toList (p ++ (nl ++ notesL) ++ s) = true := by
        rw [sep3_eq]
        exact marker_contains_true p s nl [] (p ++ nl) (by simp)
      rw [strip_loop_cons_false _ _ _ hc1, strip_loop_cons_false _ _ _ hc2,
        strip_loop_cons_true _ _ _ hc3, sep3_eq,
        marker_tbf p s nl [] (p ++ nl) hnl hp hs (by simp) (by decide)]
      exact pyStrip_append_nl p nl hnl

/-- C8 counterexample: when the prompt already contains the bare marker,
appending a higher-precedence marker changes which occurrence is
stripped, so the fingerprint changes.  The claim as stated quantifies
over every prompt, so this input refutes it. -/
theorem fingerprint_volatile_counterexample :
    Utils.compute_agent_hash ("aNotes:b" ++ "\n\nNotes:" ++ "x") true ≠
      Utils.compute_agent_hash "aNotes:b" true := by
  decide

/-- C8 amended: appending any volatile-section marker and any suffix
leaves the fingerprint unchanged, provided neither the prompt nor the
suffix already contains the marker substring. -/
theorem fingerprint_volatile_suffix (p s m : String)
    (hm : m = "\n\nNotes:" ∨ m = "\nNotes:" ∨ m = "Notes:")
    (hp : containsSub notesL p.toList = false)
    (hs : containsSub notesL s.toList = false) :
    Utils.compute_agent_hash (p ++ m ++ s) true = Utils.compute_agent_hash p true := by
  unfold Utils.compute_agent_hash
  simp only [if_true]
  have hL : (p ++ m ++ s).toList = p.toList ++ m.toList ++ s.toList := by
    rw [toList_append, toList_append]
  rw [hL, strip_loop_no_marker p.toList hp]
  have key : ∀ nl : List Char, nl = [] ∨ nl = ['\n'] ∨ nl = ['\n', '\n'] →
      m.toList = nl ++ notesL →
      Utils.stripSeparatorLoop Utils.volatileSeparators
          (p.toList ++ m.toList ++ s.toList) =
        Utils.stripSeparatorLoop Utils.volatileSeparators
          (p.toList ++ (nl ++ notesL) ++ s.toList) := by
    intro nl h0 hm2
    rw [hm2]
  rcases hm with rfl | rfl | rfl
  · rw [key ['\n', '\n'] (Or.inr (Or.inr rfl)) sep1_eq,
      strip_loop_marker_suffix p.toList s.toList ['\n', '\n'] (Or.inr (Or.inr rfl)) hp hs]
  · rw [key ['\n'] (Or.inr (Or.inl rfl)) sep2_eq,
      strip_loop_marker_suffix p.toList s.toList ['\n'] (Or.inr (Or.inl rfl)) hp hs]
  · rw [key [] (Or.inl rfl) sep3_eq,
      strip_loop_marker_suffix p.toList s.toList [] (Or.inl rfl) hp hs]

/-- Witness for C8 amended at a concrete prompt, marker and suffix. -/
theorem fingerprint_volatile_suffix_witness :
    Utils.compute_agent_hash ("hello" ++ "\n\nNotes:" ++ " scratch data") true =
      Utils.compute_agent_hash "hello" true := by
  exact fingerprint_volatile_suffix "hello" " scratch data" "\n\nNotes:" (Or.inl rfl)
    (by decide) (by decide)
